import Mathlib

/-!
Model of the interactive pet-record collectors in
`src/rust-intro/petDatabase.rs` and `src/rust-intro/petDatabase2.rs`.

Both programs loop reading a name line, a species line and an age line from
standard input, trim each line, parse the age as a `u8`, push the resulting
`Pet` onto a vector, then read a continuation line and stop exactly when its
trimmed text equals `"no"` up to ASCII case; finally each collected pet is
printed as `<name> is a <species> and is <age> years old`.

Standard input is modelled as a list of events: a line of text or a
lower-level I/O fault; an exhausted list models end-of-stream, where Rust's
`read_line` returns `Ok(0)` leaving the buffer empty.
-/

/-- The `Pet` struct of both programs: `name : String`, `species : String`,
`age : u8` (modelled as a `Nat`; a successful parse keeps it below 256). -/
structure Pet where
  name : String
  species : String
  age : Nat
  deriving DecidableEq, Repr

/-- One event of the standard-input stream: either a line of text (its
terminator already removed) or a lower-level I/O fault. -/
inductive InEvent where
  | line (s : String)
  | ioErr
  deriving DecidableEq, Repr

/-- Outcomes that abort a run: `ioFailure` models a `std::io::Error` from
`read_line` (panic via `expect` in `petDatabase.rs`, `?`-propagation out of
`main` in `petDatabase2.rs`); `parseFailure` models the `expect` panic on a
failed `u8` parse.  Both exit the process with a nonzero status and a
diagnostic message. -/
inductive Failure where
  | ioFailure
  | parseFailure
  deriving DecidableEq, Repr

/-- `Stdin::read_line`: at end of stream it succeeds leaving the buffer empty
(Rust returns `Ok(0)`), a lower-level fault is an `Err`, and otherwise one
line is consumed. -/
def readLineEv : List InEvent → Except Failure (String × List InEvent)
  | [] => .ok ("", [])
  | .line s :: rest => .ok (s, rest)
  | .ioErr :: _ => .error .ioFailure

/-- Rust `char::is_whitespace`: the Unicode White_Space property. -/
def rustIsWhitespace (c : Char) : Bool :=
  decide (c.toNat = 0x20 ∨ (0x09 ≤ c.toNat ∧ c.toNat ≤ 0x0D) ∨ c.toNat = 0x85
    ∨ c.toNat = 0xA0 ∨ c.toNat = 0x1680 ∨ (0x2000 ≤ c.toNat ∧ c.toNat ≤ 0x200A)
    ∨ c.toNat = 0x2028 ∨ c.toNat = 0x2029 ∨ c.toNat = 0x202F ∨ c.toNat = 0x205F
    ∨ c.toNat = 0x3000)

/-- Rust `str::trim`: drop leading and trailing whitespace characters. -/
def rustTrim (s : String) : String :=
  String.mk (((s.data.dropWhile rustIsWhitespace).reverse.dropWhile rustIsWhitespace).reverse)

/-- Digit-accumulation core of `u8::from_str` (radix 10): every remaining
character must be an ASCII digit and the running value may never exceed the
`u8` maximum 255. -/
def parseU8Digits : List Char → Nat → Option Nat
  | [], acc => some acc
  | c :: cs, acc =>
    if c.isDigit then
      let acc' := acc * 10 + (c.toNat - 48)
      if acc' ≤ 255 then parseU8Digits cs acc' else none
    else none

/-- Rust `str::parse::<u8>` (`u8::from_str`): an optional leading `+`
followed by one or more decimal digits consuming the whole string, with the
value at most 255; the empty string, a lone `+`, and any leading `-` are
rejected for an unsigned type. -/
def parseU8 (s : String) : Option Nat :=
  match s.data with
  | [] => none
  | ['+'] => none
  | '+' :: c :: cs => parseU8Digits (c :: cs) 0
  | '-' :: _ => none
  | cs => parseU8Digits cs 0

/-- Rust `u8::to_ascii_lowercase` lifted to characters: map `A`–`Z` to
`a`–`z` and leave every other character unchanged. -/
def asciiLower (c : Char) : Char :=
  if 'A' ≤ c ∧ c ≤ 'Z' then Char.ofNat (c.toNat + 32) else c

/-- Rust `str::eq_ignore_ascii_case`. -/
def eqIgnoreAsciiCase (a b : String) : Bool :=
  a.data.map asciiLower == b.data.map asciiLower

/-- Result of one pass through the loop body of `petDatabase.rs`:
abort with a failure, finish (`break` after a `"no"` answer) with the final
pet vector, or continue with the remaining input and the grown vector. -/
inductive StepRes where
  | fail (e : Failure)
  | done (pets : List Pet)
  | cont (evs : List InEvent) (pets : List Pet)
  deriving DecidableEq, Repr

/-- One iteration of the `loop` in `main` of `petDatabase.rs`: read and trim
the name, species and age lines, parse the age as a `u8` (a failed parse
panics), push the new `Pet`, then read the continuation line and `break`
exactly when its trimmed text equals `"no"` ignoring ASCII case. -/
def iter1 (evs : List InEvent) (pets : List Pet) : StepRes :=
  match readLineEv evs with
  | .error e => .fail e
  | .ok (rawName, evs1) =>
    match readLineEv evs1 with
    | .error e => .fail e
    | .ok (rawSpecies, evs2) =>
      match readLineEv evs2 with
      | .error e => .fail e
      | .ok (rawAge, evs3) =>
        match parseU8 (rustTrim rawAge) with
        | none => .fail .parseFailure
        | some age =>
          let pets' := pets ++ [{ name := rustTrim rawName,
                                  species := rustTrim rawSpecies, age := age }]
          match readLineEv evs3 with
          | .error e => .fail e
          | .ok (rawCont, evs4) =>
            if eqIgnoreAsciiCase (rustTrim rawCont) "no" then .done pets'
            else .cont evs4 pets'

/-- A pet appended by the loop: name and species are some line trimmed, and
the age comes from a successful strict `u8` parse (hence is at most 255). -/
def ValidPet (p : Pet) : Prop :=
  (∃ raw, p.name = rustTrim raw) ∧ (∃ raw, p.species = rustTrim raw) ∧
    (∃ raw, parseU8 (rustTrim raw) = some p.age) ∧ p.age ≤ 255

@[simp] theorem readLineEv_nil : readLineEv [] = .ok ("", []) := rfl

@[simp] theorem readLineEv_line (s : String) (rest : List InEvent) :
    readLineEv (.line s :: rest) = .ok (s, rest) := rfl

@[simp] theorem readLineEv_ioErr (rest : List InEvent) :
    readLineEv (.ioErr :: rest) = .error .ioFailure := rfl

theorem readLineEv_ok_le {l r : List InEvent} {s : String}
    (h : readLineEv l = .ok (s, r)) : r.length ≤ l.length := by
  cases l with
  | nil =>
    simp only [readLineEv, Except.ok.injEq, Prod.mk.injEq] at h
    simp [← h.2]
  | cons e t =>
    cases e with
    | line s2 =>
      simp only [readLineEv, Except.ok.injEq, Prod.mk.injEq] at h
      simp [← h.2]
    | ioErr => simp [readLineEv] at h

theorem parseU8Digits_le {cs : List Char} {acc v : Nat}
    (h : parseU8Digits cs acc = some v) (hacc : acc ≤ 255) : v ≤ 255 := by
  induction cs generalizing acc with
  | nil => simp [parseU8Digits] at h; omega
  | cons c cs ih =>
    simp only [parseU8Digits] at h
    split at h
    · split at h
      · exact ih h (by omega)
      · exact absurd h (by simp)
    · exact absurd h (by simp)

theorem parseU8_le {s : String} {v : Nat} (h : parseU8 s = some v) : v ≤ 255 := by
  unfold parseU8 at h
  split at h <;> first
    | exact absurd h (by simp)
    | exact parseU8Digits_le h (by omega)

/-- Complete case analysis of one loop iteration: it fails, or it appends one
valid pet and either finishes or continues having consumed at least one input
event. -/
theorem iter1_cases (evs : List InEvent) (pets : List Pet) :
    (∃ e, iter1 evs pets = .fail e)
    ∨ (∃ p, ValidPet p ∧ iter1 evs pets = .done (pets ++ [p]))
    ∨ (∃ p evs', ValidPet p ∧ evs'.length + 1 ≤ evs.length ∧
        iter1 evs pets = .cont evs' (pets ++ [p])) := by
  cases evs with
  | nil => exact Or.inl ⟨.parseFailure, rfl⟩
  | cons e t =>
    cases e with
    | ioErr => exact Or.inl ⟨.ioFailure, rfl⟩
    | line s =>
      cases h1 : readLineEv t with
      | error e => exact Or.inl ⟨e, by simp [iter1, h1]⟩
      | ok pr1 =>
        obtain ⟨s2, evs2⟩ := pr1
        cases h2 : readLineEv evs2 with
        | error e => exact Or.inl ⟨e, by simp [iter1, h1, h2]⟩
        | ok pr2 =>
          obtain ⟨s3, evs3⟩ := pr2
          cases h3 : parseU8 (rustTrim s3) with
          | none => exact Or.inl ⟨.parseFailure, by simp [iter1, h1, h2, h3]⟩
          | some ag =>
            have hvalid : ValidPet { name := rustTrim s, species := rustTrim s2, age := ag } :=
              ⟨⟨s, rfl⟩, ⟨s2, rfl⟩, ⟨s3, h3⟩, parseU8_le h3⟩
            cases h4 : readLineEv evs3 with
            | error e => exact Or.inl ⟨e, by simp [iter1, h1, h2, h3, h4]⟩
            | ok pr3 =>
              obtain ⟨s4, evs4⟩ := pr3
              have hle : evs4.length + 1 ≤ (InEvent.line s :: t).length := by
                have i2 := readLineEv_ok_le h1
                have i3 := readLineEv_ok_le h2
                have i4 := readLineEv_ok_le h4
                simp only [List.length_cons]
                omega
              cases hb : eqIgnoreAsciiCase (rustTrim s4) "no" with
              | true =>
                refine Or.inr (Or.inl ⟨_, hvalid, ?_⟩)
                simp [iter1, h1, h2, h3, h4, hb]
              | false =>
                refine Or.inr (Or.inr ⟨_, evs4, hvalid, hle, ?_⟩)
                simp [iter1, h1, h2, h3, h4, hb]

/-- The `loop` of `main` in `petDatabase.rs`: iterate until a `break`
(`done`), a panic, or an I/O failure. -/
def loop1 (evs : List InEvent) (pets : List Pet) : Except Failure (List Pet) :=
  match h : iter1 evs pets with
  | .fail e => .error e
  | .done res => .ok res
  | .cont evs' pets' => loop1 evs' pets'
termination_by evs.length
decreasing_by
  rcases iter1_cases evs pets with ⟨e, he⟩ | ⟨p, _, hd⟩ | ⟨p, e4, _, hl, hc⟩
  · rw [he] at h; cases h
  · rw [hd] at h; cases h
  · rw [hc] at h
    injection h with h1 h2
    subst h1
    omega

/-- `main` of `petDatabase.rs`, run on a stream of input events, returning
the collected pet vector (the value alive when the report loop starts). -/
def run1 (evs : List InEvent) : Except Failure (List Pet) :=
  loop1 evs []

/-- The report line printed for one pet:
`println!("{} is a {} and is {} years old", p.name, p.species, p.age)`. -/
def reportLine (p : Pet) : String :=
  p.name ++ " is a " ++ p.species ++ " and is " ++ toString p.age ++ " years old"

/-- The full report of `petDatabase.rs`: one line per collected pet, in
insertion order (nothing is printed when the run aborts). -/
def output1 (evs : List InEvent) : Except Failure (List String) :=
  (run1 evs).map (fun pets => pets.map reportLine)

theorem loop1_fail {evs : List InEvent} {pets : List Pet} {e : Failure}
    (h : iter1 evs pets = .fail e) : loop1 evs pets = .error e := by
  rw [loop1, h]

theorem loop1_done {evs : List InEvent} {pets res : List Pet}
    (h : iter1 evs pets = .done res) : loop1 evs pets = .ok res := by
  rw [loop1, h]

theorem loop1_cont {evs evs' : List InEvent} {pets pets' : List Pet}
    (h : iter1 evs pets = .cont evs' pets') : loop1 evs pets = loop1 evs' pets' := by
  rw [loop1, h]

/-- `read_line` of `petDatabase2.rs`: print the prompt, flush, read one line
from stdin (`?` propagates an I/O error) and return it trimmed. -/
def read_line (evs : List InEvent) : Except Failure (String × List InEvent) :=
  match readLineEv evs with
  | .error e => .error e
  | .ok (input, rest) => .ok (rustTrim input, rest)

/-- One iteration of the `loop` in `main` of `petDatabase2.rs`: `read_line`
the name, species and age (already trimmed), parse the age as a `u8` (a
failed parse panics via `expect`), push the new `Pet`, then `read_line` the
continuation answer and `break` exactly when it equals `"no"` ignoring ASCII
case. -/
def iter2 (evs : List InEvent) (pets : List Pet) : StepRes :=
  match read_line evs with
  | .error e => .fail e
  | .ok (name, evs1) =>
    match read_line evs1 with
    | .error e => .fail e
    | .ok (species, evs2) =>
      match read_line evs2 with
      | .error e => .fail e
      | .ok (ageText, evs3) =>
        match parseU8 ageText with
        | none => .fail .parseFailure
        | some age =>
          let pets' := pets ++ [{ name := name, species := species, age := age }]
          match read_line evs3 with
          | .error e => .fail e
          | .ok (to_cont, evs4) =>
            if eqIgnoreAsciiCase to_cont "no" then .done pets'
            else .cont evs4 pets'

/-- The two loop bodies agree step for step: trimming inside `read_line`
(`petDatabase2.rs`) and trimming at each use site (`petDatabase.rs`) build
the same pet and consume the same input. -/
theorem iter2_eq_iter1 (evs : List InEvent) (pets : List Pet) :
    iter2 evs pets = iter1 evs pets := by
  unfold iter2 iter1 read_line
  cases h0 : readLineEv evs with
  | error e => rfl
  | ok pr0 =>
    obtain ⟨s1, evs1⟩ := pr0
    cases h1 : readLineEv evs1 with
    | error e => simp [h1]
    | ok pr1 =>
      obtain ⟨s2, evs2⟩ := pr1
      cases h2 : readLineEv evs2 with
      | error e => simp [h1, h2]
      | ok pr2 =>
        obtain ⟨s3, evs3⟩ := pr2
        cases h3 : parseU8 (rustTrim s3) with
        | none => simp [h1, h2, h3]
        | some ag =>
          cases h4 : readLineEv evs3 with
          | error e => simp [h1, h2, h3, h4]
          | ok pr3 =>
            obtain ⟨s4, evs4⟩ := pr3
            simp [h1, h2, h3, h4]

/-- The `loop` of `main` in `petDatabase2.rs`. -/
def loop2 (evs : List InEvent) (pets : List Pet) : Except Failure (List Pet) :=
  match h : iter2 evs pets with
  | .fail e => .error e
  | .done res => .ok res
  | .cont evs' pets' => loop2 evs' pets'
termination_by evs.length
decreasing_by
  rw [iter2_eq_iter1] at h
  rcases iter1_cases evs pets with ⟨e, he⟩ | ⟨p, _, hd⟩ | ⟨p, e4, _, hl, hc⟩
  · rw [he] at h; cases h
  · rw [hd] at h; cases h
  · rw [hc] at h
    injection h with h1 h2
    subst h1
    omega

/-- `main` of `petDatabase2.rs`, run on a stream of input events, returning
the collected pet vector. -/
def run2 (evs : List InEvent) : Except Failure (List Pet) :=
  loop2 evs []

/-- The full report of `petDatabase2.rs`: its report loop and format string
are the same as in `petDatabase.rs`. -/
def output2 (evs : List InEvent) : Except Failure (List String) :=
  (run2 evs).map (fun pets => pets.map reportLine)

theorem loop2_fail {evs : List InEvent} {pets : List Pet} {e : Failure}
    (h : iter2 evs pets = .fail e) : loop2 evs pets = .error e := by
  rw [loop2, h]

theorem loop2_done {evs : List InEvent} {pets res : List Pet}
    (h : iter2 evs pets = .done res) : loop2 evs pets = .ok res := by
  rw [loop2, h]

theorem loop2_cont {evs evs' : List InEvent} {pets pets' : List Pet}
    (h : iter2 evs pets = .cont evs' pets') : loop2 evs pets = loop2 evs' pets' := by
  rw [loop2, h]

theorem loop2_eq_loop1_aux :
    ∀ n evs pets, List.length evs ≤ n → loop2 evs pets = loop1 evs pets := by
  intro n
  induction n with
  | zero =>
    intro evs pets hlen
    have hevs : evs = [] := List.length_eq_zero.mp (Nat.le_zero.mp hlen)
    subst hevs
    have h : iter1 [] pets = .fail .parseFailure := rfl
    rw [loop1_fail h, loop2_fail (by rw [iter2_eq_iter1]; exact h)]
  | succ n ih =>
    intro evs pets hlen
    rcases iter1_cases evs pets with ⟨e, he⟩ | ⟨p, _, hd⟩ | ⟨p, evs', _, hl, hc⟩
    · rw [loop1_fail he, loop2_fail (by rw [iter2_eq_iter1]; exact he)]
    · rw [loop1_done hd, loop2_done (by rw [iter2_eq_iter1]; exact hd)]
    · rw [loop1_cont hc, loop2_cont (by rw [iter2_eq_iter1]; exact hc)]
      exact ih evs' _ (by omega)

theorem loop2_eq_loop1 (evs : List InEvent) (pets : List Pet) :
    loop2 evs pets = loop1 evs pets :=
  loop2_eq_loop1_aux evs.length evs pets (Nat.le_refl _)

/-- When an iteration starts with three text lines whose age text fails the
`u8` parse, the iteration panics before the continuation prompt, whatever
input (even valid further iterations) follows. -/
theorem iter1_parse_fail (n s a : String) (rest : List InEvent) (pets : List Pet)
    (h : parseU8 (rustTrim a) = none) :
    iter1 (.line n :: .line s :: .line a :: rest) pets = .fail .parseFailure := by
  simp [iter1, h]

/-- Evaluation of one iteration fed four text lines. -/
theorem iter1_lines (n s a c : String) (rest : List InEvent) (pets : List Pet) :
    iter1 (.line n :: .line s :: .line a :: .line c :: rest) pets =
      match parseU8 (rustTrim a) with
      | none => .fail .parseFailure
      | some ag =>
        if eqIgnoreAsciiCase (rustTrim c) "no"
        then .done (pets ++ [{ name := rustTrim n, species := rustTrim s, age := ag }])
        else .cont rest (pets ++ [{ name := rustTrim n, species := rustTrim s, age := ag }]) := by
  cases h3 : parseU8 (rustTrim a) with
  | none => simp [iter1, h3]
  | some ag => cases hb : eqIgnoreAsciiCase (rustTrim c) "no" <;> simp [iter1, h3, hb]

theorem loop1_ok_elems_aux :
    ∀ n (evs : List InEvent) (pets res : List Pet), evs.length ≤ n →
      loop1 evs pets = .ok res →
      ∃ new, res = pets ++ new ∧ new ≠ [] ∧ ∀ p ∈ new, ValidPet p := by
  intro n
  induction n with
  | zero =>
    intro evs pets res hlen h
    have hevs : evs = [] := List.length_eq_zero.mp (Nat.le_zero.mp hlen)
    subst hevs
    rw [loop1_fail (show iter1 [] pets = .fail .parseFailure from rfl)] at h
    simp at h
  | succ n ih =>
    intro evs pets res hlen h
    rcases iter1_cases evs pets with ⟨e, he⟩ | ⟨p, hv, hd⟩ | ⟨p, evs', hv, hl, hc⟩
    · rw [loop1_fail he] at h
      simp at h
    · rw [loop1_done hd] at h
      simp only [Except.ok.injEq] at h
      refine ⟨[p], h.symm, by simp, ?_⟩
      intro q hq
      simp only [List.mem_singleton] at hq
      exact hq ▸ hv
    · rw [loop1_cont hc] at h
      obtain ⟨new, hres, hne, hval⟩ := ih evs' _ res (by omega) h
      refine ⟨p :: new, by rw [hres]; simp, by simp, ?_⟩
      intro q hq
      rcases List.mem_cons.mp hq with hq | hq
      · exact hq ▸ hv
      · exact hval q hq

/-- Every successful run appends a nonempty list of valid pets to the vector
it started from. -/
theorem loop1_ok_elems {evs : List InEvent} {pets res : List Pet}
    (h : loop1 evs pets = .ok res) :
    ∃ new, res = pets ++ new ∧ new ≠ [] ∧ ∀ p ∈ new, ValidPet p :=
  loop1_ok_elems_aux evs.length evs pets res (Nat.le_refl _) h

/-- The four raw input lines of one well-formed loop iteration. -/
structure IterLines where
  name : String
  species : String
  age : String
  cont : String
  deriving DecidableEq, Repr

/-- The stdin events produced by typing the four lines of one iteration. -/
def iterEvents (it : IterLines) : List InEvent :=
  [.line it.name, .line it.species, .line it.age, .line it.cont]

/-- The stdin events of a whole sequence of iterations. -/
def iterStream : List IterLines → List InEvent
  | [] => []
  | it :: its => iterEvents it ++ iterStream its

/-- The pet an iteration stores: trimmed name and species, parsed age. -/
def mkPet (it : IterLines) : Pet :=
  { name := rustTrim it.name, species := rustTrim it.species,
    age := (parseU8 (rustTrim it.age)).getD 0 }

theorem loop1_iters :
    ∀ (its : List IterLines) (last : IterLines) (pets : List Pet),
      (∀ it ∈ its, (parseU8 (rustTrim it.age)).isSome ∧
        eqIgnoreAsciiCase (rustTrim it.cont) "no" = false) →
      (parseU8 (rustTrim last.age)).isSome →
      eqIgnoreAsciiCase (rustTrim last.cont) "no" = true →
      loop1 (iterStream (its ++ [last])) pets
        = .ok (pets ++ (its ++ [last]).map mkPet) := by
  intro its
  induction its with
  | nil =>
    intro last pets _ hwf hno
    obtain ⟨ag, hag⟩ := Option.isSome_iff_exists.mp hwf
    have hstream : iterStream ([] ++ [last]) =
        InEvent.line last.name :: InEvent.line last.species ::
          InEvent.line last.age :: InEvent.line last.cont :: [] := by
      simp [iterStream, iterEvents]
    have hdone : iter1 (InEvent.line last.name :: InEvent.line last.species ::
        InEvent.line last.age :: InEvent.line last.cont :: ([] : List InEvent)) pets
        = .done (pets ++ [(⟨rustTrim last.name, rustTrim last.species, ag⟩ : Pet)]) := by
      rw [iter1_lines, hag]
      simp [hno]
    rw [hstream, loop1_done hdone]
    simp [mkPet, hag]
  | cons it its ih =>
    intro last pets hits hwf hno
    obtain ⟨hit, hcont⟩ := hits it (List.mem_cons_self it its)
    obtain ⟨ag, hag⟩ := Option.isSome_iff_exists.mp hit
    have hstream : iterStream ((it :: its) ++ [last]) =
        InEvent.line it.name :: InEvent.line it.species :: InEvent.line it.age ::
          InEvent.line it.cont :: iterStream (its ++ [last]) := by
      simp [iterStream, iterEvents]
    have hstep : iter1 (InEvent.line it.name :: InEvent.line it.species ::
        InEvent.line it.age :: InEvent.line it.cont :: iterStream (its ++ [last])) pets
        = .cont (iterStream (its ++ [last]))
            (pets ++ [(⟨rustTrim it.name, rustTrim it.species, ag⟩ : Pet)]) := by
      rw [iter1_lines, hag]
      simp [hcont]
    rw [hstream, loop1_cont hstep]
    rw [ih last _ (fun j hj => hits j (List.mem_cons_of_mem it hj)) hwf hno]
    simp [mkPet, hag, List.append_assoc]

/-- C1 (as amended): for N ≥ 1 iterations whose age lines parse as `u8`,
whose first N−1 continuation answers are not `"no"` and whose last answer is
`"no"`, the run terminates normally and collects exactly the N records in
entry order, names and species trimmed, ages exactly as parsed. -/
theorem C1_collects (its : List IterLines) (last : IterLines)
    (hits : ∀ it ∈ its, (parseU8 (rustTrim it.age)).isSome ∧
      eqIgnoreAsciiCase (rustTrim it.cont) "no" = false)
    (hlast : (parseU8 (rustTrim last.age)).isSome)
    (hno : eqIgnoreAsciiCase (rustTrim last.cont) "no" = true) :
    run1 (iterStream (its ++ [last])) = .ok ((its ++ [last]).map mkPet) := by
  rw [run1, loop1_iters its last [] hits hlast hno]
  simp

/-- C1 counterexample: the claim includes N = 0, whose input is the single
line `"no"`; there the program reads `"no"` as a name, hits end-of-stream for
species and age, and panics on the age parse instead of returning an empty
collection. -/
theorem C1_counterexample :
    run1 [InEvent.line "no"] = .error .parseFailure
      ∧ run1 [InEvent.line "no"] ≠ .ok [] := by
  have h : run1 [InEvent.line "no"] = .error .parseFailure := by
    rw [run1]
    exact loop1_fail (by decide)
  exact ⟨h, by rw [h]; simp⟩

/-- C1 witness: the spec's end-to-end scenario
`["  Rex  ","Dog","3","yes","Milo","Cat","1","no"]` collects Rex (trimmed)
then Milo. -/
theorem C1_witness :
    run1 (iterStream ([⟨"  Rex  ", "Dog", "3", "yes"⟩] ++ [⟨"Milo", "Cat", "1", "no"⟩]))
      = .ok [(⟨"Rex", "Dog", 3⟩ : Pet), ⟨"Milo", "Cat", 1⟩] := by
  have h := C1_collects [⟨"  Rex  ", "Dog", "3", "yes"⟩] ⟨"Milo", "Cat", "1", "no"⟩
    (by decide) (by decide) (by decide)
  rw [h]
  rfl

/-- C2: after a completed iteration the loop terminates exactly when the
trimmed continuation answer equals `"no"` up to ASCII case, and the eight
answers listed in the spec behave as stated. -/
theorem C2_continuation :
    (∀ (n s a c : String) (rest : List InEvent) (pets : List Pet) (ag : Nat),
      parseU8 (rustTrim a) = some ag →
      ((iter1 (.line n :: .line s :: .line a :: .line c :: rest) pets
          = .done (pets ++ [(⟨rustTrim n, rustTrim s, ag⟩ : Pet)])
        ↔ eqIgnoreAsciiCase (rustTrim c) "no" = true)
      ∧ (iter1 (.line n :: .line s :: .line a :: .line c :: rest) pets
          = .cont rest (pets ++ [(⟨rustTrim n, rustTrim s, ag⟩ : Pet)])
        ↔ eqIgnoreAsciiCase (rustTrim c) "no" = false)))
    ∧ eqIgnoreAsciiCase (rustTrim "no") "no" = true
    ∧ eqIgnoreAsciiCase (rustTrim "No") "no" = true
    ∧ eqIgnoreAsciiCase (rustTrim "NO") "no" = true
    ∧ eqIgnoreAsciiCase (rustTrim "nO") "no" = true
    ∧ eqIgnoreAsciiCase (rustTrim "nope") "no" = false
    ∧ eqIgnoreAsciiCase (rustTrim "n") "no" = false
    ∧ eqIgnoreAsciiCase (rustTrim "") "no" = false
    ∧ eqIgnoreAsciiCase (rustTrim "yes") "no" = false := by
  refine ⟨?_, by decide, by decide, by decide, by decide, by decide, by decide,
    by decide, by decide⟩
  intro n s a c rest pets ag hag
  rw [iter1_lines, hag]
  cases hb : eqIgnoreAsciiCase (rustTrim c) "no" <;> simp [hb]

/-- C2 witness: the answer `"nO"` ends the loop after one full iteration. -/
theorem C2_witness :
    parseU8 (rustTrim "3") = some 3
    ∧ iter1 [InEvent.line "Rex", InEvent.line "Dog", InEvent.line "3", InEvent.line "nO"] []
        = .done ([] ++ [(⟨rustTrim "Rex", rustTrim "Dog", 3⟩ : Pet)]) :=
  ⟨by decide,
    (C2_continuation.1 "Rex" "Dog" "3" "nO" [] [] 3 (by decide)).1.mpr (by decide)⟩

/-- C3: the age is parsed from the trimmed line by a strict whole-string
`u8` parse: `"7"` gives 7; `"256"`, `"7.0"`, `"7x"` and `"-1"` all fail, and
inside the loop a failing age text panics while `" 7 "` stores age 7. -/
theorem C3_age_parse :
    parseU8 (rustTrim "7") = some 7
    ∧ parseU8 (rustTrim "256") = none
    ∧ parseU8 (rustTrim "7.0") = none
    ∧ parseU8 (rustTrim "7x") = none
    ∧ parseU8 (rustTrim "-1") = none
    ∧ iter1 [InEvent.line "Rex", InEvent.line "Dog", InEvent.line " 7 ", InEvent.line "no"] []
        = .done [(⟨"Rex", "Dog", 7⟩ : Pet)]
    ∧ iter1 [InEvent.line "Rex", InEvent.line "Dog", InEvent.line "7x", InEvent.line "no"] []
        = .fail .parseFailure := by
  decide

/-- C4 counterexample: end-of-stream where a line is required does NOT give
an `IOFailure`: on empty input `read_line` keeps returning `Ok(0)`, the empty
age text fails to parse, and the run dies with a parse failure instead. -/
theorem C4_counterexample :
    run1 [] = .error .parseFailure ∧ run1 [] ≠ .error .ioFailure := by
  have h : run1 [] = .error .parseFailure := by
    rw [run1]
    exact loop1_fail (by decide)
  exact ⟨h, by rw [h]; simp⟩

/-- C4 (as amended): an error signalled by the underlying I/O layer is fatal
and propagates as an `IOFailure` wherever it occurs, with no recovery inside
the loop; end-of-stream, by contrast, reads as an empty line and the run ends
with a fatal age-parse failure, not an `IOFailure`. -/
theorem C4_io_failure :
    (∀ (rest : List InEvent) (pets : List Pet),
      loop1 (.ioErr :: rest) pets = .error .ioFailure)
    ∧ (∀ (n : String) (rest : List InEvent) (pets : List Pet),
        loop1 (.line n :: .ioErr :: rest) pets = .error .ioFailure)
    ∧ run1 [] = .error .parseFailure := by
  refine ⟨fun rest pets => loop1_fail rfl, fun n rest pets => loop1_fail rfl, ?_⟩
  rw [run1]
  exact loop1_fail (by decide)

/-- C5: under the baseline policy a failed age parse is fatal: whatever input
follows, the run aborts with the parse failure, no further records are
collected and the report phase never runs (no output is produced). -/
theorem C5_parse_fatal (n s a : String) (rest : List InEvent)
    (h : parseU8 (rustTrim a) = none) :
    run1 (.line n :: .line s :: .line a :: rest) = .error .parseFailure
    ∧ output1 (.line n :: .line s :: .line a :: rest) = .error .parseFailure := by
  have hr : run1 (.line n :: .line s :: .line a :: rest) = .error .parseFailure := by
    rw [run1]
    exact loop1_fail (iter1_parse_fail n s a rest [] h)
  refine ⟨hr, ?_⟩
  rw [output1, hr]
  rfl

/-- C5 witness: the age text `"7.0"` aborts the run even though a valid
continuation answer follows; nothing is reported. -/
theorem C5_witness :
    run1 [InEvent.line "Rex", InEvent.line "Dog", InEvent.line "7.0", InEvent.line "no"]
      = .error .parseFailure
    ∧ output1 [InEvent.line "Rex", InEvent.line "Dog", InEvent.line "7.0", InEvent.line "no"]
      = .error .parseFailure :=
  C5_parse_fatal "Rex" "Dog" "7.0" [InEvent.line "no"] (by decide)

/-- C6: on normal termination the report phase prints, for every collected
record in insertion order, exactly the line
`<name> is a <species> and is <age> years old`; Rex/Dog/3 gives exactly
`Rex is a Dog and is 3 years old`. -/
theorem C6_report (evs : List InEvent) (pets : List Pet)
    (h : run1 evs = .ok pets) :
    output1 evs = .ok (pets.map reportLine)
    ∧ reportLine ⟨"Rex", "Dog", 3⟩ = "Rex is a Dog and is 3 years old" := by
  refine ⟨?_, by decide⟩
  rw [output1, h]
  rfl

/-- C6 witness: the one-record run Rex/Dog/3 reports exactly one line. -/
theorem C6_witness :
    output1 [InEvent.line "Rex", InEvent.line "Dog", InEvent.line "3", InEvent.line "no"]
      = .ok ["Rex is a Dog and is 3 years old"] := by
  have h := C6_report [InEvent.line "Rex", InEvent.line "Dog", InEvent.line "3", InEvent.line "no"]
    [⟨"Rex", "Dog", 3⟩] (by rw [run1]; exact loop1_done (by decide))
  rw [h.1]
  rfl

/-- C7: the continuation prompt only comes after a full completed iteration,
so no successful run returns an empty collection. -/
theorem C7_nonempty (evs : List InEvent) (pets : List Pet)
    (h : run1 evs = .ok pets) : pets ≠ [] ∧ 1 ≤ pets.length := by
  obtain ⟨new, hres, hne, _⟩ := loop1_ok_elems (show loop1 evs [] = .ok pets from h)
  have : pets = new := by rw [hres]; simp
  subst this
  exact ⟨hne, by cases pets with | nil => exact absurd rfl hne | cons p ps => simp⟩

/-- C7 witness: the minimal run has one record, not zero. -/
theorem C7_witness :
    ([(⟨"Rex", "Dog", 3⟩ : Pet)] : List Pet) ≠ [] ∧
      1 ≤ ([(⟨"Rex", "Dog", 3⟩ : Pet)] : List Pet).length :=
  C7_nonempty [InEvent.line "Rex", InEvent.line "Dog", InEvent.line "3", InEvent.line "no"]
    [⟨"Rex", "Dog", 3⟩] (by rw [run1]; exact loop1_done (by decide))

/-- C8: every element of a successful run's collection is a fully validated
record (trimmed name and species, age from a successful strict `u8` parse,
hence at most 255), and an iteration whose age parse fails appends nothing:
it aborts before any push. -/
theorem C8_validated (evs : List InEvent) (pets res : List Pet)
    (hstart : ∀ p ∈ pets, ValidPet p)
    (h : loop1 evs pets = .ok res) :
    (∀ p ∈ res, ValidPet p)
    ∧ (∀ (n s a : String) (rest : List InEvent) (qs : List Pet),
        parseU8 (rustTrim a) = none →
        iter1 (.line n :: .line s :: .line a :: rest) qs = .fail .parseFailure) := by
  refine ⟨?_, fun n s a rest qs hn => iter1_parse_fail n s a rest qs hn⟩
  intro p hp
  obtain ⟨new, hres, _, hval⟩ := loop1_ok_elems h
  rw [hres] at hp
  rcases List.mem_append.mp hp with hp | hp
  · exact hstart p hp
  · exact hval p hp

/-- C8 witness: the record produced by the run Rex/Dog/3 is validated. -/
theorem C8_witness : ValidPet ⟨"Rex", "Dog", 3⟩ :=
  (C8_validated [InEvent.line "Rex", InEvent.line "Dog", InEvent.line "3", InEvent.line "no"]
      [] [⟨"Rex", "Dog", 3⟩] (by simp) (loop1_done (by decide))).1
    ⟨"Rex", "Dog", 3⟩ (by simp)

/-- C9: the continuation answer is trimmed before the case-insensitive
comparison with `"no"`, so `"  No  "` also ends the loop. -/
theorem C9_cont_trimmed :
    eqIgnoreAsciiCase (rustTrim "  No  ") "no" = true
    ∧ iter1 [InEvent.line "Rex", InEvent.line "Dog", InEvent.line "3", InEvent.line "  No  "] []
        = .done [(⟨"Rex", "Dog", 3⟩ : Pet)]
    ∧ run1 [InEvent.line "Rex", InEvent.line "Dog", InEvent.line "3", InEvent.line "  No  "]
        = .ok [(⟨"Rex", "Dog", 3⟩ : Pet)] := by
  refine ⟨by decide, by decide, ?_⟩
  rw [run1]
  exact loop1_done (by decide)

/-- C10: `petDatabase.rs` and `petDatabase2.rs` are equivalent record
collectors: on every input stream they produce the same collection outcome
and the same report lines (their prompt texts and diagnostics are the only
differences and are outside the collected data). -/
theorem C10_equivalence (evs : List InEvent) :
    run2 evs = run1 evs ∧ output2 evs = output1 evs := by
  have h : run2 evs = run1 evs := by
    rw [run2, run1, loop2_eq_loop1]
  exact ⟨h, by rw [output2, output1, h]⟩
